import Mathlib

/-!
# Verification of the gocache repository

Shallow embedding of the two cache implementations in the repository:

* `GoCache` embeds `src/cache/cache.go`: a TTL cache (`Cache`) over a Go map
  `map[string]Item`, with lazy expiry on `Get`, `Add`/`Update`/`Delete`,
  gob snapshot `Save`/`Load` with merge-on-load, and file wrappers
  `SaveToFile`/`LoadFile`.
* `Caches` embeds `src/unnamed/part_001` (package `caches`): a byte-value
  cache with a redundant `count` field kept in sync with the map size.

Go maps are modelled as association lists with unique keys; `m[k] = v` is
`insertKey`, `delete(m, k)` is `eraseKey`, `v, ok := m[k]` is `lookupKey`.
Time (`time.Now().UnixNano()`) is passed explicitly as an integer `now`;
durations are integers (nanoseconds). I/O and the gob codec are abstracted
by their outcomes: a decoded stream is `Except DecodeErr` of the mapping
the codec wrote, file open/close outcomes are explicit parameters.
-/

namespace AssocMap

/-- `v, ok := m[k]` on a Go map modelled as an association list. -/
def lookupKey (l : List (String × β)) (k : String) : Option β :=
  match l with
  | [] => none
  | (k', v) :: t => if k' = k then some v else lookupKey t k

/-- `delete(m, k)` on a Go map: remove the binding for `k`. -/
def eraseKey (l : List (String × β)) (k : String) : List (String × β) :=
  l.filter (fun p => p.1 ≠ k)

/-- `m[k] = v` on a Go map: replace the binding for `k` in place, or append it. -/
def insertKey (l : List (String × β)) (k : String) (v : β) : List (String × β) :=
  match l with
  | [] => [(k, v)]
  | (k', v') :: t => if k' = k then (k, v) :: t else (k', v') :: insertKey t k v

/-- Uniqueness of keys: the structural invariant of a Go map in this model. -/
def NodupKeys (l : List (String × β)) : Prop :=
  (l.map Prod.fst).Nodup

theorem lookupKey_nil (k : String) : lookupKey ([] : List (String × β)) k = none := rfl

theorem lookupKey_insertKey_self (l : List (String × β)) (k : String) (v : β) :
    lookupKey (insertKey l k v) k = some v := by
  induction l with
  | nil => simp [insertKey, lookupKey]
  | cons p t ih =>
    obtain ⟨k', v'⟩ := p
    by_cases h : k' = k
    · simp [insertKey, h, lookupKey]
    · simp [insertKey, h, lookupKey, ih]

theorem lookupKey_insertKey_ne (l : List (String × β)) (k k' : String) (v : β)
    (h : k' ≠ k) : lookupKey (insertKey l k' v) k = lookupKey l k := by
  induction l with
  | nil => simp [insertKey, lookupKey, h]
  | cons p t ih =>
    obtain ⟨k₀, v₀⟩ := p
    by_cases h₀ : k₀ = k'
    · subst h₀
      simp [insertKey, lookupKey, h]
    · simp only [insertKey, if_neg h₀]
      by_cases h₁ : k₀ = k
      · simp [lookupKey, h₁]
      · simp [lookupKey, h₁, ih]

theorem lookupKey_eq_none_iff (l : List (String × β)) (k : String) :
    lookupKey l k = none ↔ k ∉ l.map Prod.fst := by
  induction l with
  | nil => simp [lookupKey]
  | cons p t ih =>
    obtain ⟨k', v'⟩ := p
    by_cases h : k' = k
    · simp [lookupKey, h]
    · simp [lookupKey, h, ih, Ne.symm h]

theorem length_insertKey_of_present (l : List (String × β)) (k : String) (v : β)
    (h : lookupKey l k ≠ none) : (insertKey l k v).length = l.length := by
  induction l with
  | nil => simp [lookupKey] at h
  | cons p t ih =>
    obtain ⟨k', v'⟩ := p
    by_cases hk : k' = k
    · simp [insertKey, hk]
    · simp only [lookupKey, if_neg hk] at h
      simp [insertKey, hk, ih h]

theorem length_insertKey_of_absent (l : List (String × β)) (k : String) (v : β)
    (h : lookupKey l k = none) : (insertKey l k v).length = l.length + 1 := by
  induction l with
  | nil => simp [insertKey]
  | cons p t ih =>
    obtain ⟨k', v'⟩ := p
    by_cases hk : k' = k
    · simp [lookupKey, hk] at h
    · simp only [lookupKey, if_neg hk] at h
      simp [insertKey, hk, ih h]

theorem mem_insertKey (l : List (String × β)) (k : String) (v : β) (q : String × β)
    (hq : q ∈ insertKey l k v) : q = (k, v) ∨ q ∈ l := by
  induction l with
  | nil => simpa [insertKey] using hq
  | cons p t ih =>
    obtain ⟨k', v'⟩ := p
    by_cases hk : k' = k
    · simp only [insertKey, if_pos hk, List.mem_cons] at hq
      rcases hq with h1 | h2
      · exact Or.inl h1
      · exact Or.inr (List.mem_cons_of_mem _ h2)
    · simp only [insertKey, if_neg hk, List.mem_cons] at hq
      rcases hq with h1 | h2
      · exact Or.inr (List.mem_cons.mpr (Or.inl h1))
      · rcases ih h2 with h3 | h4
        · exact Or.inl h3
        · exact Or.inr (List.mem_cons_of_mem _ h4)

theorem nodupKeys_insertKey (l : List (String × β)) (k : String) (v : β)
    (h : NodupKeys l) : NodupKeys (insertKey l k v) := by
  induction l with
  | nil => simp [insertKey, NodupKeys]
  | cons p t ih =>
    obtain ⟨k', v'⟩ := p
    simp only [NodupKeys, List.map_cons, List.nodup_cons] at h
    by_cases hk : k' = k
    · subst hk
      simpa [insertKey, NodupKeys] using h
    · have ht := ih h.2
      simp only [insertKey, if_neg hk, NodupKeys, List.map_cons, List.nodup_cons]
      refine ⟨?_, ht⟩
      intro hmem
      rcases List.mem_map.mp hmem with ⟨q, hq, hq1⟩
      rcases mem_insertKey t k v q hq with h1 | h2
      · subst h1
        exact hk hq1.symm
      · exact h.1 (List.mem_map.mpr ⟨q, h2, hq1⟩)

theorem eraseKey_of_absent (l : List (String × β)) (k : String)
    (h : lookupKey l k = none) : eraseKey l k = l := by
  induction l with
  | nil => rfl
  | cons p t ih =>
    obtain ⟨k', v'⟩ := p
    by_cases hk : k' = k
    · simp [lookupKey, hk] at h
    · simp only [lookupKey, if_neg hk] at h
      simp only [eraseKey, List.filter_cons]
      rw [if_pos (by simp [hk])]
      have := ih h
      simp only [eraseKey] at this
      rw [this]

theorem length_eraseKey_of_present (l : List (String × β)) (k : String)
    (hn : NodupKeys l) (h : lookupKey l k ≠ none) :
    l.length = (eraseKey l k).length + 1 := by
  induction l with
  | nil => simp [lookupKey] at h
  | cons p t ih =>
    obtain ⟨k', v'⟩ := p
    simp only [NodupKeys, List.map_cons, List.nodup_cons] at hn
    by_cases hk : k' = k
    · subst hk
      have h0 : lookupKey t k' = none := by
        rw [lookupKey_eq_none_iff]
        exact hn.1
      have he : eraseKey ((k', v') :: t) k' = t := by
        simp only [eraseKey, List.filter_cons]
        rw [if_neg (by simp)]
        have := eraseKey_of_absent t k' h0
        simpa [eraseKey] using this
      rw [he]
      simp
    · simp only [lookupKey, if_neg hk] at h
      have ht := ih hn.2 h
      have he : eraseKey ((k', v') :: t) k = (k', v') :: eraseKey t k := by
        simp only [eraseKey, List.filter_cons]
        rw [if_pos (by simp [hk])]
      rw [he]
      simp only [List.length_cons]
      omega

theorem nodupKeys_eraseKey (l : List (String × β)) (k : String)
    (h : NodupKeys l) : NodupKeys (eraseKey l k) := by
  induction l with
  | nil => simp [eraseKey, NodupKeys]
  | cons p t ih =>
    obtain ⟨k', v'⟩ := p
    simp only [NodupKeys, List.map_cons, List.nodup_cons] at h
    by_cases hk : k' = k
    · have he : eraseKey ((k', v') :: t) k = eraseKey t k := by
        simp only [eraseKey, List.filter_cons]
        rw [if_neg (by simp [hk])]
      rw [he]
      exact ih h.2
    · have he : eraseKey ((k', v') :: t) k = (k', v') :: eraseKey t k := by
        simp only [eraseKey, List.filter_cons]
        rw [if_pos (by simp [hk])]
      rw [he]
      simp only [NodupKeys, List.map_cons, List.nodup_cons]
      refine ⟨?_, ih h.2⟩
      intro hmem
      rcases List.mem_map.mp hmem with ⟨q, hq, hq1⟩
      exact h.1 (List.mem_map.mpr ⟨q, List.mem_of_mem_filter hq, hq1⟩)

end AssocMap

namespace GoCache

open AssocMap

/-- `Item` from src/cache/cache.go: the stored object plus an absolute
expiration timestamp in UnixNano (`0` is the no-expiration sentinel, as in
`Item.Expired`). The payload type `interface\x7b\x7d` is a type parameter. -/
structure Item (α : Type) where
  object : α
  expiration : Int
deriving DecidableEq

/-- `Item.Expired`: false when `Expiration == 0`; otherwise true iff
`time.Now().UnixNano() > Expiration`. `now` is the current UnixNano time. -/
def Item.expired (item : Item α) (now : Int) : Bool :=
  if item.expiration = 0 then false else decide (now > item.expiration)

/-- `NoExpiration time.Duration = -1` (duration in nanoseconds). -/
def NoExpiration : Int := -1

/-- `DefaultExpiration time.Duration = 0`. -/
def DefaultExpiration : Int := 0

/-- `Cache` from src/cache/cache.go (the lock, the gc interval and the stop
channel are concurrency plumbing; the data state is `defaultExpiration` and
the `items` map). -/
structure Cache (α : Type) where
  defaultExpiration : Int
  items : List (String × Item α)
deriving DecidableEq

/-- The duration actually used by `Set`/`set` after the
`if d == DefaultExpiration \x7b d = c.defaultExpiration \x7d` substitution. -/
def effDuration (c : Cache α) (d : Int) : Int :=
  if d = DefaultExpiration then c.defaultExpiration else d

/-- Two's-complement `int64` wrap-around: the value in
`[-2^63, 2^63 - 1]` congruent to `x` modulo `2^64`. Go's `int64`
arithmetic, and hence `time.Now().Add(d).UnixNano()`, wraps this way when
the nanosecond sum leaves the representable range (the `Time.UnixNano`
documentation calls the out-of-range result undefined; the arithmetic the
implementation performs is this wrap). -/
def wrap64 (x : Int) : Int :=
  (x + 2 ^ 63) % 2 ^ 64 - 2 ^ 63

/-- `Cache.Set` (and the lock-free `Cache.set`, whose body is identical):
substitute the default TTL for the `DefaultExpiration` marker, compute
`e = time.Now().Add(d).UnixNano()` when `d > 0` (else `e = 0`) — in
`int64` arithmetic, i.e. `wrap64 (now + d)` — and write
`c.items[k] = Item\x7bObject: v, Expiration: e\x7d`. -/
def set (c : Cache α) (k : String) (v : α) (d : Int) (now : Int) : Cache α :=
  let d := effDuration c d
  let e := if d > 0 then wrap64 (now + d) else 0
  { c with items := insertKey c.items k ⟨v, e⟩ }

/-- `wrap64` is the identity on values already representable in `int64`. -/
theorem wrap64_eq_self (x : Int) (h1 : -(2 ^ 63) ≤ x) (h2 : x ≤ 2 ^ 63 - 1) :
    wrap64 x = x := by
  unfold wrap64
  have h3 : (x + 2 ^ 63) % 2 ^ 64 = x + 2 ^ 63 :=
    Int.emod_eq_of_lt (by omega) (by omega)
  omega

/-- The lock-free `Cache.get`: look `k` up and treat an expired item as
absent. Returns the Go `(interface\x7b\x7d, bool)` pair (`nil` is `none`). -/
def get (c : Cache α) (k : String) (now : Int) : Option α × Bool :=
  match lookupKey c.items k with
  | none => (none, false)
  | some item => if item.expired now then (none, false) else (some item.object, true)

/-- `Cache.Get`: same body as `get` under an RLock. The method performs no
write to `c.items`, so the state transformer returns the receiver unchanged
alongside the `(value, found)` result. -/
def GetOp (c : Cache α) (k : String) (now : Int) : Cache α × (Option α × Bool) :=
  (c, match lookupKey c.items k with
      | none => (none, false)
      | some item => if item.expired now then (none, false) else (some item.object, true))

/-- `Cache.Add`: inside one critical section, fail with
"Item k already exists" when `get` finds a live entry, otherwise `set`. -/
def add (c : Cache α) (k : String) (v : α) (d : Int) (now : Int) :
    Cache α × Option String :=
  match (get c k now).2 with
  | true => (c, some ("Item " ++ k ++ " already exists"))
  | false => (set c k v d now, none)

/-- `Cache.Update`: inside one critical section, fail with
"Item k does-not-exist" when `get` finds no live entry, otherwise `set`. -/
def update (c : Cache α) (k : String) (v : α) (d : Int) (now : Int) :
    Cache α × Option String :=
  match (get c k now).2 with
  | false => (c, some ("Item " ++ k ++ " doesn\x27t exist"))
  | true => (set c k v d now, none)

/-- `Cache.Delete` (via the lock-free `delete`): `delete(c.items, k)`. -/
def deleteOp (c : Cache α) (k : String) : Cache α :=
  { c with items := eraseKey c.items k }

/-- `Cache.DeleteExpired`: remove every item with
`v.Expiration > 0 && now > v.Expiration`. -/
def deleteExpired (c : Cache α) (now : Int) : Cache α :=
  let items := c.items.filter (fun p => ¬(p.2.expiration > 0 ∧ now > p.2.expiration))
  { c with items := items }

/-- `Cache.Count`: `len(c.items)` under an RLock. -/
def count (c : Cache α) : Nat :=
  c.items.length

/-- `Cache.Flush`: replace `c.items` with an empty map. -/
def flush (c : Cache α) : Cache α :=
  { c with items := [] }

/-- Decode failure of the gob stream in `Cache.Load`. -/
structure DecodeErr where
  msg : String
deriving DecidableEq

/-- `Cache.Save`: registers the item types and encodes `c.items` onto the
stream. The stream is abstracted by what the gob codec will decode from it:
the `items` mapping itself (`enc.Encode(&c.items)` writes exactly that map;
the claims evaluated here use payloads the codec round-trips). The method
reads under an RLock and performs no write, so the cache is unchanged. -/
def save (c : Cache α) : List (String × Item α) :=
  c.items

/-- One iteration of the merge loop in `Cache.Load`: overwrite the current
binding for the decoded key only when `!found || ov.Expired()`. -/
def mergeStep (now : Int) (acc : List (String × Item α)) (kv : String × Item α) :
    List (String × Item α) :=
  match lookupKey acc kv.1 with
  | none => insertKey acc kv.1 kv.2
  | some ov => if ov.expired now then insertKey acc kv.1 kv.2 else acc

/-- `Cache.Load`: decode a `map[string]Item` from the stream; on success,
merge each decoded binding into `c.items`, overwriting the current binding
only when it is absent (`!found`) or expired (`ov.Expired()`); on decode
error, return the error without touching `c.items`. The decoded stream is
passed as `Except DecodeErr` of the mapping the codec read. -/
def load (c : Cache α) (decoded : Except DecodeErr (List (String × Item α)))
    (now : Int) : Cache α × Option DecodeErr :=
  match decoded with
  | .error e => (c, some e)
  | .ok items => ({ c with items := items.foldl (mergeStep now) c.items }, none)

/-- `Cache.SaveToFile`: `os.Create`, then `Save`, closing the file on both
the failure and the success path. File I/O is abstracted by the outcomes of
the three steps (`none` is a nil error). Result: the returned error, and
whether the file was closed. -/
def saveToFile (openErr : Option String) (saveErr : Option String)
    (closeErr : Option String) : Option String × Bool :=
  match openErr with
  | some e => (some e, false)
  | none =>
    match saveErr with
    | some e => (some e, true)
    | none => (closeErr, true)

/-- `Cache.LoadFile`: `os.Open`, then `Load`, closing the file on both the
failure and the success path; same shape as `saveToFile`. -/
def loadFile (openErr : Option String) (loadErr : Option String)
    (closeErr : Option String) : Option String × Bool :=
  match openErr with
  | some e => (some e, false)
  | none =>
    match loadErr with
    | some e => (some e, true)
    | none => (closeErr, true)

/-- Modelled from the Go standard library: `time.NewTicker(d)` panics when
`d <= 0` ("non-positive interval for NewTicker"); otherwise it yields a
ticker. The panic is an `Except.error`. -/
def newTicker (d : Int) : Except String Int :=
  if d ≤ 0 then .error "non-positive interval for NewTicker" else .ok d

/-- `Cache.gcLoop` up to its first blocking `select`: it unconditionally
calls `time.NewTicker(c.gcInterval)` before entering the loop, so its
startup either panics (non-positive interval) or yields the ticker the
sweep loop will wait on. -/
def gcLoopStart (gcInterval : Int) : Except String Int :=
  newTicker gcInterval

/-- `NewCache`: build the cache with an empty items map and start
`gcLoop` as a goroutine. The result carries the constructed cache state and
the startup outcome of the spawned `gcLoop`. -/
def newCache (defaultExpiration gcInterval : Int) :
    Cache α × Except String Int :=
  ({ defaultExpiration := defaultExpiration, items := [] }, gcLoopStart gcInterval)

end GoCache

namespace Caches

open AssocMap

/-- `utils.Copy` from src/utils/byte.go: allocate a fresh slice and copy
`src` into it. Lean lists are immutable values, so the defensive copy
returns a list with the same elements. -/
def Copy (src : List Nat) : List Nat :=
  List.foldr List.cons [] src

theorem Copy_eq (src : List Nat) : Copy src = src := by
  simp [Copy]

/-- `Cache` from src/unnamed/part_001 (package caches): the byte-valued
`data` map plus the redundant `count` of key/value pairs (`int64`); the
RWMutex is concurrency plumbing and carries no data. Bytes are
modelled as naturals below 256; their byte-ness is irrelevant here. -/
structure Cache where
  data : List (String × List Nat)
  count : Int
deriving DecidableEq

/-- `NewCache` from part_001: empty map (capacity hint aside), zero count. -/
def NewCache : Cache :=
  { data := [], count := 0 }

/-- `Cache.Set` from part_001: increment `count` when the key is absent,
then store a defensive copy of `value`. -/
def set (c : Cache) (key : String) (value : List Nat) : Cache :=
  let count := match lookupKey c.data key with
    | none => c.count + 1
    | some _ => c.count
  { data := insertKey c.data key (Copy value), count := count }

/-- `Cache.Get` from part_001: the raw map read `value, ok := c.data[key]`. -/
def get (c : Cache) (key : String) : Option (List Nat) × Bool :=
  match lookupKey c.data key with
  | none => (none, false)
  | some v => (some v, true)

/-- `Cache.Delete` from part_001: when the key is present, decrement
`count` and delete it; otherwise do nothing. -/
def delete (c : Cache) (key : String) : Cache :=
  match lookupKey c.data key with
  | some _ => { data := eraseKey c.data key, count := c.count - 1 }
  | none => c

/-- `Cache.Count` from part_001: return the maintained `count` field. -/
def countOp (c : Cache) : Int :=
  c.count

end Caches

namespace GoCache

open AssocMap

/-- Concrete cache for witnesses: "a" maps to 7 and never expires, "b"
maps to 8 and expired at UnixNano 3. -/
def cFour : Cache Nat :=
  Cache.mk 0 [("a", ⟨7, 0⟩), ("b", ⟨8, 3⟩)]

/-- Concrete cache for witnesses: only "a", mapped to 7, never expiring. -/
def cThree : Cache Nat :=
  Cache.mk 0 [("a", ⟨7, 0⟩)]

/-- C4: `Get(k)` returns `(stored value, true)` iff an entry for `k` is
present and not expired — where an entry is expired iff its expiration is
not the sentinel `0` and the current time is strictly greater than it — and
otherwise returns `(zero value, false)`; `Get` leaves the cache state, in
particular an expired-but-unreaped entry, unchanged. -/
theorem spec_c4_get_semantics (α : Type) (c : Cache α) (k : String) (now : Int) :
    (GetOp c k now).1 = c ∧
    (∀ it : Item α, lookupKey c.items k = some it → it.expired now = false →
      (GetOp c k now).2 = (some it.object, true)) ∧
    (lookupKey c.items k = none → (GetOp c k now).2 = (none, false)) ∧
    (∀ it : Item α, lookupKey c.items k = some it → it.expired now = true →
      (GetOp c k now).2 = (none, false)) ∧
    (∀ it : Item α, it.expired now = true ↔ (it.expiration ≠ 0 ∧ now > it.expiration)) := by
  refine ⟨rfl, ?_, ?_, ?_, ?_⟩
  · intro it hit hlive
    simp [GetOp, hit, hlive]
  · intro hnone
    simp [GetOp, hnone]
  · intro it hit hexp
    simp [GetOp, hit, hexp]
  · intro it
    by_cases h0 : it.expiration = 0
    · simp [Item.expired, h0]
    · simp [Item.expired, h0]

/-- C4 witness: on the cache holding a live "a" and an expired "b" at time
10, `Get` returns the value for "a", misses on "b" and "c", and leaves the
cache unchanged. -/
theorem spec_c4_get_semantics_witness :
    (GetOp cFour "a" 10).2 = (some 7, true) ∧ (GetOp cFour "b" 10).2 = (none, false) ∧
    (GetOp cFour "c" 10).2 = (none, false) ∧ (GetOp cFour "b" 10).1 = cFour :=
  ⟨(spec_c4_get_semantics Nat cFour "a" 10).2.1 ⟨7, 0⟩ (by decide) (by decide),
   (spec_c4_get_semantics Nat cFour "b" 10).2.2.2.1 ⟨8, 3⟩ (by decide) (by decide),
   (spec_c4_get_semantics Nat cFour "c" 10).2.2.1 (by decide),
   (spec_c4_get_semantics Nat cFour "b" 10).1⟩

/-- C5: `Update(k, v, ttl)` on a key with no live (non-expired) entry
returns the does-not-exist error and leaves the entries mapping unchanged;
it never creates a new key. -/
theorem spec_c5_update_requires_live (α : Type) (c : Cache α) (k : String) (v : α)
    (d now : Int)
    (h : ∀ it : Item α, lookupKey c.items k = some it → it.expired now = true) :
    update c k v d now = (c, some ("Item " ++ k ++ " doesn\x27t exist")) := by
  have hget : (get c k now).2 = false := by
    unfold get
    cases hl : lookupKey c.items k with
    | none => simp
    | some it => simp [h it hl]
  unfold update
  rw [hget]

/-- C5 witness: updating the missing key "a" of an empty cache fails and
changes nothing. -/
theorem spec_c5_update_requires_live_witness :
    update (Cache.mk 0 [] : Cache Nat) "a" 5 0 7 =
      (Cache.mk 0 [], some "Item a doesn\x27t exist") :=
  spec_c5_update_requires_live Nat (Cache.mk 0 []) "a" 5 0 7
    (fun it hit => by simp [lookupKey] at hit)

/-- C3: `Add(k, v, ttl)` returns the already-exists error and does not
overwrite when a live entry for `k` is present; when `k` is absent or its
entry is expired, `Add` stores the new entry through `set`. -/
theorem spec_c3_add_conflict (α : Type) (c : Cache α) (k : String) (v : α)
    (d now : Int) :
    (∀ it : Item α, lookupKey c.items k = some it → it.expired now = false →
      add c k v d now = (c, some ("Item " ++ k ++ " already exists"))) ∧
    ((∀ it : Item α, lookupKey c.items k = some it → it.expired now = true) →
      add c k v d now = (set c k v d now, none)) := by
  constructor
  · intro it hit hlive
    unfold add
    have hget : (get c k now).2 = true := by
      simp [get, hit, hlive]
    rw [hget]
  · intro h
    unfold add
    have hget : (get c k now).2 = false := by
      unfold get
      cases hl : lookupKey c.items k with
      | none => simp
      | some it => simp [h it hl]
    rw [hget]

/-- C3 witness: at time 9, adding to the live key "a" fails without
overwriting, while adding to the absent key "b" stores the new entry. -/
theorem spec_c3_add_conflict_witness :
    add cThree "a" 5 0 9 = (cThree, some "Item a already exists") ∧
    add cThree "b" 5 0 9 = (set cThree "b" 5 0 9, none) :=
  ⟨(spec_c3_add_conflict Nat cThree "a" 5 0 9).1 ⟨7, 0⟩ (by decide) (by decide),
   (spec_c3_add_conflict Nat cThree "b" 5 0 9).2
     (fun it hit => by simp [lookupKey] at hit)⟩

/-- C9: when decoding the input stream fails, `Load` returns the decode
error and the entries mapping is completely unchanged (the merge runs only
on decode success). -/
theorem spec_c9_load_decode_error (α : Type) (c : Cache α) (e : DecodeErr) (now : Int) :
    load c (.error e) now = (c, some e) ∧ ((load c (.error e) now).1).items = c.items :=
  ⟨rfl, rfl⟩

/-- C8: after a successful open, `SaveToFile` and `LoadFile` close the file
on every exit path, return the `Save`/`Load` error when there is one (even
if close also fails), and otherwise propagate the close error. -/
theorem spec_c8_file_wrappers (e1 e2 : Option String) :
    ((saveToFile none e1 e2).2 = true ∧
      (saveToFile none e1 e2).1 = (match e1 with | some e => some e | none => e2)) ∧
    ((loadFile none e1 e2).2 = true ∧
      (loadFile none e1 e2).1 = (match e1 with | some e => some e | none => e2)) := by
  cases e1 <;> simp [saveToFile, loadFile]

/-- C2 claims that constructing a cache with a non-positive reaper interval
succeeds with the reaper simply never sweeping. In the code, `NewCache`
unconditionally spawns `gcLoop`, whose first action
`time.NewTicker(c.gcInterval)` panics for a non-positive interval: the
startup outcome is the panic, not a quiescent reaper. -/
theorem spec_c2_gcloop_panics_on_nonpositive_interval :
    (newCache (α := Nat) 0 0).2 = Except.error "non-positive interval for NewTicker" ∧
    (newCache (α := Nat) 0 (-5)).2 = Except.error "non-positive interval for NewTicker" ∧
    (newCache (α := Nat) 0 3).2 = Except.ok 3 := by
  refine ⟨rfl, ?_, rfl⟩
  simp [newCache, gcLoopStart, newTicker]

/-- C10 counterexample: `Set` at UnixNano time 1 with the legal maximal
ttl `2^63 - 1` ns (`time.Duration(math.MaxInt64)`) stores the wrapped
`int64` sum `-(2^63)` — an expiration that is neither the sentinel `0` nor
a strictly positive `now + d` — and the entry is already expired at its
own insertion time. -/
theorem spec_c10_overflow_counterexample :
    lookupKey (set (Cache.mk 0 [] : Cache Nat) "k" 1 (2 ^ 63 - 1) 1).items "k" =
      some ⟨1, -(2 ^ 63)⟩ ∧
    Item.expired (⟨1, -(2 ^ 63)⟩ : Item Nat) 1 = true ∧
    (GetOp (set (Cache.mk 0 [] : Cache Nat) "k" 1 (2 ^ 63 - 1) 1) "k" 1).2 =
      (none, false) := by
  refine ⟨?_, by decide, ?_⟩ <;> decide

/-- C10 (amended): when the `int64` nanosecond sum does not overflow
(`now + effective duration ≤ 2^63 - 1`), every entry written by `set` (the
shared store path of `Set`, `Add` and `Update`) carries expiration `0`
(never expires) or the strictly positive timestamp `now + d` for the
effective duration `d`; every non-positive effective duration —
`NoExpiration`, a non-positive default reached via `DefaultExpiration`, or
any other negative ttl — yields the never-expiring sentinel `0`. -/
theorem spec_c10_set_expiration (α : Type) (c : Cache α) (k : String) (v : α)
    (d now : Int) (hnow : 0 ≤ now)
    (hbound : now + effDuration c d ≤ 2 ^ 63 - 1) :
    lookupKey (set c k v d now).items k =
      some ⟨v, if effDuration c d > 0 then now + effDuration c d else 0⟩ ∧
    (effDuration c d > 0 → 0 < now + effDuration c d) ∧
    (effDuration c d ≤ 0 → lookupKey (set c k v d now).items k = some ⟨v, 0⟩ ∧
      ∀ t : Int, Item.expired ⟨v, 0⟩ t = false) ∧
    ((add c k v d now).2 = none → (add c k v d now).1 = set c k v d now) ∧
    ((update c k v d now).2 = none → (update c k v d now).1 = set c k v d now) := by
  have hraw : lookupKey (set c k v d now).items k =
      some ⟨v, if effDuration c d > 0 then wrap64 (now + effDuration c d) else 0⟩ := by
    unfold set
    exact lookupKey_insertKey_self c.items k _
  refine ⟨?_, ?_, ?_, ?_, ?_⟩
  · by_cases hd : effDuration c d > 0
    · rw [hraw, if_pos hd, if_pos hd,
        wrap64_eq_self (now + effDuration c d) (by omega) hbound]
    · rw [hraw, if_neg hd, if_neg hd]
  · intro hd
    omega
  · intro hd
    constructor
    · rwa [if_neg (by omega)] at hraw
    · intro t
      simp [Item.expired]
  · unfold add
    cases hget : (get c k now).2 <;> simp
  · unfold update
    cases hget : (get c k now).2 <;> simp

/-- One `mergeStep` of the `Load` loop never changes the binding of a key
whose current entry is live. -/
theorem lookupKey_mergeStep_of_live (now : Int) (acc : List (String × Item α))
    (kv : String × Item α) (k : String) (it : Item α)
    (hl : lookupKey acc k = some it) (hlive : it.expired now = false) :
    lookupKey (mergeStep now acc kv) k = some it := by
  unfold mergeStep
  by_cases hk : kv.1 = k
  · rw [hk, hl]
    simp [hlive, hl]
  · cases hov : lookupKey acc kv.1 with
    | none =>
      rw [lookupKey_insertKey_ne acc k kv.1 kv.2 hk, hl]
    | some ov =>
      by_cases hex : ov.expired now = true
      · show lookupKey (if ov.expired now = true then insertKey acc kv.1 kv.2 else acc)
          k = some it
        rw [if_pos hex, lookupKey_insertKey_ne acc k kv.1 kv.2 hk, hl]
      · show lookupKey (if ov.expired now = true then insertKey acc kv.1 kv.2 else acc)
          k = some it
        rw [if_neg hex, hl]

/-- The whole `Load` merge loop never changes the binding of a key whose
current entry is live. -/
theorem lookupKey_foldl_mergeStep_of_live (now : Int)
    (items : List (String × Item α)) (k : String) (it : Item α) :
    ∀ acc : List (String × Item α), lookupKey acc k = some it →
      it.expired now = false →
      lookupKey (items.foldl (mergeStep now) acc) k = some it := by
  induction items with
  | nil =>
    intro acc hl _
    simpa using hl
  | cons kv t ih =>
    intro acc hl hlive
    simp only [List.foldl_cons]
    exact ih _ (lookupKey_mergeStep_of_live now acc kv k it hl hlive) hlive

/-- C1: for a key present in a loaded snapshot whose current entry is live
(non-expired), `Load` leaves that entry unchanged, and a subsequent `Get`
still returns the pre-Load value with found = true. -/
theorem spec_c1_load_never_clobbers_live (α : Type) (c : Cache α)
    (snap : List (String × Item α)) (k : String) (it : Item α) (now : Int)
    (hsnap : lookupKey snap k ≠ none)
    (hl : lookupKey c.items k = some it) (hlive : it.expired now = false) :
    lookupKey ((load c (.ok snap) now).1).items k = some it ∧
    (GetOp (load c (.ok snap) now).1 k now).2 = (some it.object, true) := by
  have h1 : lookupKey ((load c (.ok snap) now).1).items k = some it := by
    unfold load
    exact lookupKey_foldl_mergeStep_of_live now snap k it c.items hl hlive
  refine ⟨h1, ?_⟩
  simp [GetOp, h1, hlive]

/-- C1 witness: a snapshot binding "a" to 1 does not clobber the live
current entry binding "a" to 2; Get still returns 2. -/
theorem spec_c1_load_never_clobbers_live_witness :
    lookupKey ((load (Cache.mk 0 [("a", ⟨2, 0⟩)] : Cache Nat)
        (.ok [("a", ⟨1, 0⟩)]) 5).1).items "a" = some ⟨2, 0⟩ ∧
    (GetOp (load (Cache.mk 0 [("a", ⟨2, 0⟩)] : Cache Nat)
        (.ok [("a", ⟨1, 0⟩)]) 5).1 "a" 5).2 = (some 2, true) :=
  spec_c1_load_never_clobbers_live Nat (Cache.mk 0 [("a", ⟨2, 0⟩)])
    [("a", ⟨1, 0⟩)] "a" ⟨2, 0⟩ 5 (by decide) (by decide) (by decide)

/-- C7: saving a store holding never-expiring entries for "a" and "b" and
loading the stream into a fresh empty store reproduces both entries:
`Get("a")` yields `(x, true)` and `Get("b")` yields `(y, true)`. -/
theorem spec_c7_snapshot_roundtrip (α : Type) (x y : α) (dd de t1 t2 now : Int) :
    (GetOp ((load (Cache.mk de [])
        (.ok (save (set (set (Cache.mk dd [] : Cache α) "a" x NoExpiration t1)
          "b" y NoExpiration t2))) now).1) "a" now).2 = (some x, true) ∧
    (GetOp ((load (Cache.mk de [])
        (.ok (save (set (set (Cache.mk dd [] : Cache α) "a" x NoExpiration t1)
          "b" y NoExpiration t2))) now).1) "b" now).2 = (some y, true) := by
  constructor <;> rfl

/-- C10 witness: at time 4 with default TTL 0, an explicit ttl 6 stores
expiration 10, and the `NoExpiration` marker stores the sentinel 0. -/
theorem spec_c10_set_expiration_witness :
    lookupKey (set (Cache.mk 0 [] : Cache Nat) "k" 1 6 4).items "k" = some ⟨1, 10⟩ ∧
    lookupKey (set (Cache.mk 0 [] : Cache Nat) "k" 1 NoExpiration 4).items "k" =
      some ⟨1, 0⟩ :=
  ⟨by
    have h := (spec_c10_set_expiration Nat (Cache.mk 0 []) "k" 1 6 4 (by decide)
      (by decide)).1
    simpa [effDuration, DefaultExpiration] using h,
   ((spec_c10_set_expiration Nat (Cache.mk 0 []) "k" 1 NoExpiration 4 (by decide)
      (by decide)).2.2.1 (by decide)).1⟩

end GoCache

namespace Caches

open AssocMap

/-- Concrete cache for the C6 witness: one pair, count 1. -/
def cSix : Cache :=
  Cache.mk [("a", [1])] 1

/-- C6: `count == len(data)` holds in the initial state and is preserved by
every operation of the caches package: `Set` increments `count` exactly
when the key was absent, `Delete` decrements it exactly when the key was
present, and `Count` returns the maintained counter. -/
theorem spec_c6_count_matches_size :
    (NewCache.count = (NewCache.data.length : Int)) ∧
    (∀ (c : Cache) (key : String) (value : List Nat),
      NodupKeys c.data → c.count = (c.data.length : Int) →
      (Caches.set c key value).count = (((Caches.set c key value).data.length : Int)) ∧
      NodupKeys (Caches.set c key value).data ∧
      (Caches.set c key value).count =
        (if lookupKey c.data key = none then c.count + 1 else c.count)) ∧
    (∀ (c : Cache) (key : String),
      NodupKeys c.data → c.count = (c.data.length : Int) →
      (Caches.delete c key).count = (((Caches.delete c key).data.length : Int)) ∧
      NodupKeys (Caches.delete c key).data ∧
      (Caches.delete c key).count =
        (if lookupKey c.data key = none then c.count else c.count - 1)) ∧
    (∀ c : Cache, countOp c = c.count) := by
  refine ⟨rfl, ?_, ?_, fun c => rfl⟩
  · intro c key value hn hc
    cases hl : lookupKey c.data key with
    | none =>
      have hlen := length_insertKey_of_absent c.data key (Copy value) hl
      have hset : Caches.set c key value =
          Cache.mk (insertKey c.data key (Copy value)) (c.count + 1) := by
        unfold Caches.set
        rw [hl]
      refine ⟨?_, ?_, ?_⟩
      · rw [hset]
        show c.count + 1 = ((insertKey c.data key (Copy value)).length : Int)
        rw [hlen]
        omega
      · rw [hset]
        exact nodupKeys_insertKey c.data key (Copy value) hn
      · rw [hset]
        simp
    | some v =>
      have hne : lookupKey c.data key ≠ none := by simp [hl]
      have hlen := length_insertKey_of_present c.data key (Copy value) hne
      have hset : Caches.set c key value =
          Cache.mk (insertKey c.data key (Copy value)) c.count := by
        unfold Caches.set
        rw [hl]
      refine ⟨?_, ?_, ?_⟩
      · rw [hset]
        show c.count = ((insertKey c.data key (Copy value)).length : Int)
        rw [hlen]
        omega
      · rw [hset]
        exact nodupKeys_insertKey c.data key (Copy value) hn
      · rw [hset]
        simp
  · intro c key hn hc
    cases hl : lookupKey c.data key with
    | none =>
      have hdel : Caches.delete c key = c := by
        unfold Caches.delete
        rw [hl]
      rw [hdel]
      exact ⟨hc, hn, by simp⟩
    | some v =>
      have hne : lookupKey c.data key ≠ none := by simp [hl]
      have hlen := length_eraseKey_of_present c.data key hn hne
      have hdel : Caches.delete c key =
          Cache.mk (eraseKey c.data key) (c.count - 1) := by
        unfold Caches.delete
        rw [hl]
      refine ⟨?_, ?_, ?_⟩
      · rw [hdel]
        show c.count - 1 = ((eraseKey c.data key).length : Int)
        omega
      · rw [hdel]
        exact nodupKeys_eraseKey c.data key hn
      · rw [hdel]
        simp

/-- C6 witness: on the one-entry cache, setting a fresh key keeps
`count == len(data)` (both become 2), and deleting the present key keeps it
(both become 0). -/
theorem spec_c6_count_matches_size_witness :
    (Caches.set cSix "b" [2]).count = ((Caches.set cSix "b" [2]).data.length : Int) ∧
    (Caches.delete cSix "a").count = ((Caches.delete cSix "a").data.length : Int) :=
  ⟨(spec_c6_count_matches_size.2.1 cSix "b" [2]
      (by show (cSix.data.map Prod.fst).Nodup; decide) (by decide)).1,
   (spec_c6_count_matches_size.2.2.1 cSix "a"
      (by show (cSix.data.map Prod.fst).Nodup; decide) (by decide)).1⟩

end Caches
